import Mathlib

/-
  Verification development for the orchestration / normalization layer of a
  music-metadata extraction library (single source file `src/index.ts`).

  The embedding below translates the code of `src/index.ts` into Lean:

  * `orderTags` (lines 512-518): a JS plain object used as a dictionary from
    tag id to the list of values; modelled as an association list
    `List (String × List α)` in insertion order.  (JS objects place
    integer-like keys first; no claim constrains key order, so the
    insertion-order association list is an adequate model.)
  * `joinArtists` (lines 520-525).
  * `ratingToStars` (lines 532-533): the JS `number | undefined` argument is
    modelled as `Option ℚ`; `Math.round` is round-half-toward-+∞, i.e.
    `⌊x + 1/2⌋` over exact arithmetic.
  * `parseFile` (lines 454-474): the promise chain is modelled as a function
    of an environment describing the outcomes of the external collaborators
    (strtok3.fromFile, ParserFactory.getParserIdForExtension,
    ParserFactory.loadParser, parser.parse, tokenizer.close), returning the
    settled result together with the trace of collaborator invocations.
  * `parseStream` (lines 483-490) / `parseBuffer` (lines 499-505): the
    fileSize adjustment performed on the acquired tokenizer before
    `ParserFactory.parse` is invoked; JS truthiness of `fileSize` (a
    `number | undefined`) is modelled on `Option ℕ`.
-/

namespace MusicMetadata

/-- `ITag` from src/index.ts: `{ id: string, value: any }`.  The `any`-typed
value is a type parameter. -/
structure ITag (α : Type) where
  id : String
  value : α

/-- Association-list model of the JS object `INativeTagDict` built by
`orderTags`: tag id ↦ ordered list of values, entries in insertion order. -/
abbrev TagDict (α : Type) := List (String × List α)

/-- One step of the loop body of `orderTags` (src/index.ts line 515):
`(tags[tag.id] = (tags[tag.id] || [])).push(tag.value)` — append `v` to the
entry for id `i` if one exists, otherwise create a new entry at the end. -/
def addTagValue : TagDict α → String → α → TagDict α
  | [], i, v => [(i, [v])]
  | p :: d, i, v =>
      if p.1 = i then (p.1, p.2 ++ [v]) :: d else p :: addTagValue d i v

/-- `orderTags` from src/index.ts (lines 512-518): fold the loop body over the
native tag list, starting from the empty object. -/
def orderTags (nativeTags : List (ITag α)) : TagDict α :=
  nativeTags.foldl (fun d t => addTagValue d t.id t.value) []

/-- Reading a tag id out of the dictionary: the value list of the first entry
with that key, `[]` when the key is absent. -/
def dictGet (i : String) : TagDict α → List α
  | [] => []
  | p :: d => if p.1 = i then p.2 else dictGet i d

/-- Whether the dictionary has an entry for tag id `i`. -/
def hasKey (i : String) : TagDict α → Bool
  | [] => false
  | p :: d => p.1 = i || hasKey i d

/-- The keys of the dictionary, in entry order. -/
def dictKeys (d : TagDict α) : List String :=
  d.map Prod.fst

/-- `joinArtists` from src/index.ts (lines 520-525):
more than two names → `slice(0, n-1).join(', ') + ' & ' + last`;
otherwise → `join(' & ')`. -/
def joinArtists (artists : List String) : String :=
  if artists.length > 2 then
    String.intercalate ", " (artists.take (artists.length - 1)) ++ " & " ++
      artists.getLastD ""
  else
    String.intercalate " & " artists

/-- JavaScript `Math.round` on exact values: nearest integer, ties toward +∞,
i.e. `⌊x + 1/2⌋`. -/
def jsRound (x : ℚ) : ℤ :=
  ⌊x + 1 / 2⌋

/-- `ratingToStars` from src/index.ts (lines 532-533):
`rating === undefined ? 0 : 1 + Math.round(rating * 4)`.  The
`number | undefined` argument is `Option ℚ`. -/
def ratingToStars : Option ℚ → ℤ
  | none => 0
  | some rating => 1 + jsRound (rating * 4)

/-! ### Helper lemmas about the dictionary operations -/

theorem dictKeys_nil : dictKeys ([] : TagDict α) = [] := rfl

theorem dictKeys_cons (p : String × List α) (d : TagDict α) :
    dictKeys (p :: d) = p.1 :: dictKeys d := rfl

theorem dictGet_addTagValue (d : TagDict α) (i j : String) (v : α) :
    dictGet i (addTagValue d j v) =
      if i = j then dictGet i d ++ [v] else dictGet i d := by
  induction d with
  | nil =>
      by_cases h : i = j
      · subst h; simp [addTagValue, dictGet]
      · have h2 : ¬ j = i := fun hj => h hj.symm
        simp [addTagValue, dictGet, h, h2]
  | cons p d ih =>
      by_cases hp : p.1 = j
      · by_cases h : i = j
        · subst h; simp [addTagValue, dictGet, hp]
        · have h2 : ¬ j = i := fun hj => h hj.symm
          have hpi : ¬ p.1 = i := fun hpi => h (hpi ▸ hp)
          simp [addTagValue, dictGet, hp, hpi, h, h2]
      · by_cases hpi : p.1 = i
        · have h : ¬ i = j := fun hij => hp (hpi.trans hij)
          simp [addTagValue, dictGet, hp, hpi, h]
        · simp [addTagValue, dictGet, hp, hpi, ih]

theorem hasKey_addTagValue (d : TagDict α) (i j : String) (v : α) :
    hasKey i (addTagValue d j v) = (hasKey i d || decide (j = i)) := by
  induction d with
  | nil => simp [addTagValue, hasKey]
  | cons p d ih =>
      by_cases hp : p.1 = j
      · by_cases hpi : p.1 = i
        · simp [addTagValue, hasKey, hp, hpi, hp ▸ hpi,
            (hp ▸ hpi : j = i)]
        · have h2 : ¬ j = i := fun h => hpi (hp.symm ▸ h)
          simp [addTagValue, hasKey, hp, hpi, h2]
      · by_cases hpi : p.1 = i
        · have h2 : ¬ i = j := fun h => hp (hpi.trans h)
          simp [addTagValue, hasKey, hp, hpi, h2]
        · simp [addTagValue, hasKey, hp, hpi, ih]

theorem hasKey_iff_mem_dictKeys (d : TagDict α) (i : String) :
    hasKey i d = true ↔ i ∈ dictKeys d := by
  induction d with
  | nil => simp [hasKey, dictKeys_nil]
  | cons p d ih =>
      rw [dictKeys_cons]
      by_cases hp : p.1 = i
      · simp [hasKey, hp]
      · have h2 : ¬ i = p.1 := fun h => hp h.symm
        simp [hasKey, hp, h2, ih]

theorem dictKeys_addTagValue (d : TagDict α) (j : String) (v : α) :
    dictKeys (addTagValue d j v) =
      if hasKey j d then dictKeys d else dictKeys d ++ [j] := by
  induction d with
  | nil => simp [addTagValue, dictKeys_nil, dictKeys_cons, hasKey]
  | cons p d ih =>
      by_cases hp : p.1 = j
      · simp [addTagValue, dictKeys_cons, hasKey, hp]
      · have hstep : addTagValue (p :: d) j v = p :: addTagValue d j v := by
          simp [addTagValue, hp]
        rw [hstep, dictKeys_cons, dictKeys_cons, ih]
        by_cases hj : hasKey j d <;> simp [hasKey, hp, hj]

theorem nodup_dictKeys_addTagValue (d : TagDict α) (j : String) (v : α)
    (h : (dictKeys d).Nodup) : (dictKeys (addTagValue d j v)).Nodup := by
  rw [dictKeys_addTagValue]
  by_cases hj : hasKey j d
  · simpa [hj]
  · have hmem : j ∉ dictKeys d := fun hm =>
      hj ((hasKey_iff_mem_dictKeys d j).mpr hm)
    simp [hj, List.nodup_append, h, hmem]

/-- The values of the tags of `ts` whose id is `i`, in their original order. -/
def valuesOf (i : String) (ts : List (ITag α)) : List α :=
  (ts.filter fun t => t.id = i).map fun t => t.value

theorem dictGet_foldl_addTagValue (ts : List (ITag α)) (d : TagDict α)
    (i : String) :
    dictGet i (ts.foldl (fun d t => addTagValue d t.id t.value) d) =
      dictGet i d ++ valuesOf i ts := by
  induction ts generalizing d with
  | nil => simp [valuesOf]
  | cons t ts ih =>
      by_cases h : t.id = i
      · simp [List.foldl_cons, ih, dictGet_addTagValue, valuesOf, h,
          List.filter_cons]
      · have h2 : ¬ i = t.id := fun hi => h hi.symm
        simp [List.foldl_cons, ih, dictGet_addTagValue, valuesOf, h, h2,
          List.filter_cons]

theorem dictGet_orderTags (ts : List (ITag α)) (i : String) :
    dictGet i (orderTags ts) = valuesOf i ts := by
  simpa [orderTags, dictGet] using dictGet_foldl_addTagValue ts [] i

theorem hasKey_foldl_addTagValue (ts : List (ITag α)) (d : TagDict α)
    (i : String) :
    hasKey i (ts.foldl (fun d t => addTagValue d t.id t.value) d) =
      (hasKey i d || ts.any fun t => t.id = i) := by
  induction ts generalizing d with
  | nil => simp
  | cons t ts ih =>
      simp [List.foldl_cons, ih, hasKey_addTagValue, Bool.or_assoc,
        Bool.or_comm, Bool.or_left_comm]

theorem hasKey_orderTags (ts : List (ITag α)) (i : String) :
    hasKey i (orderTags ts) = ts.any fun t => t.id = i := by
  simpa [orderTags, hasKey] using hasKey_foldl_addTagValue ts [] i

theorem nodup_dictKeys_orderTags (ts : List (ITag α)) :
    (dictKeys (orderTags ts)).Nodup := by
  have main : ∀ (ts : List (ITag α)) (d : TagDict α), (dictKeys d).Nodup →
      (dictKeys (ts.foldl (fun d t => addTagValue d t.id t.value) d)).Nodup := by
    intro ts
    induction ts with
    | nil => intro d hd; simpa using hd
    | cons t ts ih =>
        intro d hd
        exact ih _ (nodup_dictKeys_addTagValue d t.id t.value hd)
  exact main ts [] (by simp [dictKeys])

/-! ### Claim theorems for the normalization utilities -/

/-- C4: for every list of native tags `T`, `orderTags T` returns a dictionary
in which every value of `T` appears exactly once, under the key equal to its
tag's id (reading any id out of the dictionary yields exactly the values of
the tags of `T` carrying that id, in their original relative order), with no
other entries (a key is present iff some tag of `T` carries it, and keys are
not duplicated); `orderTags []` yields the empty mapping. -/
theorem orderTags_groups_by_id (α : Type) :
    (∀ (ts : List (ITag α)) (i : String),
        dictGet i (orderTags ts) = valuesOf i ts) ∧
    (∀ (ts : List (ITag α)) (i : String),
        hasKey i (orderTags ts) = ts.any fun t => t.id = i) ∧
    (∀ ts : List (ITag α), (dictKeys (orderTags ts)).Nodup) ∧
    orderTags ([] : List (ITag α)) = [] :=
  ⟨fun ts i => dictGet_orderTags ts i,
   fun ts i => hasKey_orderTags ts i,
   fun ts => nodup_dictKeys_orderTags ts,
   rfl⟩

/-- C10: `orderTags` is a homomorphism from list concatenation to per-id
group concatenation: for every tag id, the value group of that id in
`orderTags (T1 ++ T2)` is the concatenation of its group in `orderTags T1`
with its group in `orderTags T2`, and a key is present in the combined
dictionary iff it is present in either part. -/
theorem orderTags_append_hom (α : Type) :
    (∀ (t1 t2 : List (ITag α)) (i : String),
        dictGet i (orderTags (t1 ++ t2)) =
          dictGet i (orderTags t1) ++ dictGet i (orderTags t2)) ∧
    (∀ (t1 t2 : List (ITag α)) (i : String),
        hasKey i (orderTags (t1 ++ t2)) =
          (hasKey i (orderTags t1) || hasKey i (orderTags t2))) := by
  constructor
  · intro t1 t2 i
    simp [dictGet_orderTags, valuesOf, List.filter_append]
  · intro t1 t2 i
    simp [hasKey_orderTags]

/-- C5: `joinArtists` returns the empty string for zero names, the names
joined with `" & "` for one or two names, and for three or more names all
but the last joined with `", "` followed by `" & "` and the last name. -/
theorem joinArtists_spec :
    joinArtists [] = "" ∧
    (∀ a : String, joinArtists [a] = a) ∧
    (∀ a b : String, joinArtists [a, b] = a ++ " & " ++ b) ∧
    (∀ (xs : List String) (z : String), 2 ≤ xs.length →
        joinArtists (xs ++ [z]) = String.intercalate ", " xs ++ " & " ++ z) := by
  refine ⟨rfl, fun a => rfl, fun a b => rfl, ?_⟩
  intro xs z h
  have hlen : (xs ++ [z]).length > 2 := by simp; omega
  have h1 : (xs ++ [z]).length - 1 = xs.length := by simp
  rw [joinArtists, if_pos hlen, h1, List.take_left, List.getLastD_concat]

/-- Witness for C5: applying the three-or-more case at a concrete input. -/
theorem joinArtists_spec_witness :
    joinArtists (["A", "B", "C"] ++ ["D"]) = "A, B, C & D" := by
  rw [joinArtists_spec.2.2.2 ["A", "B", "C"] "D" (by decide)]
  rfl

/-- C6: `ratingToStars` returns 0 for an unset input and otherwise
`1 + round(rating * 4)` with round to the nearest integer (the rounded value
differs from `rating * 4` by at most 1/2); for input in `[0,1]` the result
lies in `[0,5]`; `ratingToStars 0 = 1`, `ratingToStars (1/2) = 3` and
`ratingToStars 1 = 5`. -/
theorem ratingToStars_spec :
    ratingToStars none = 0 ∧
    (∀ r : ℚ, ratingToStars (some r) = 1 + jsRound (r * 4)) ∧
    (∀ r : ℚ, |r * 4 - (jsRound (r * 4) : ℚ)| ≤ 1 / 2) ∧
    (∀ r : ℚ, 0 ≤ r → r ≤ 1 →
        0 ≤ ratingToStars (some r) ∧ ratingToStars (some r) ≤ 5) ∧
    ratingToStars (some 0) = 1 ∧
    ratingToStars (some (1 / 2)) = 3 ∧
    ratingToStars (some 1) = 5 := by
  refine ⟨rfl, fun r => rfl, ?_, ?_, by norm_num [ratingToStars, jsRound],
    by norm_num [ratingToStars, jsRound], by norm_num [ratingToStars, jsRound]⟩
  · intro r
    have h1 : ((⌊r * 4 + 1 / 2⌋ : ℤ) : ℚ) ≤ r * 4 + 1 / 2 := Int.floor_le _
    have h2 : r * 4 + 1 / 2 < (⌊r * 4 + 1 / 2⌋ : ℤ) + 1 :=
      Int.lt_floor_add_one _
    rw [jsRound, abs_le]
    constructor <;> linarith
  · intro r h0 h1
    have hl : (0 : ℤ) ≤ ⌊r * 4 + 1 / 2⌋ :=
      Int.le_floor.mpr (by push_cast; linarith)
    have hu : ⌊r * 4 + 1 / 2⌋ < 5 :=
      Int.floor_lt.mpr (by push_cast; linarith)
    simp only [ratingToStars, jsRound]
    omega

/-- Witness for C6: the range bound applied at the concrete rating 1/2. -/
theorem ratingToStars_spec_witness :
    0 ≤ ratingToStars (some (1 / 2)) ∧ ratingToStars (some (1 / 2)) ≤ 5 :=
  ratingToStars_spec.2.2.2.1 (1 / 2) (by norm_num) (by norm_num)

/-- C8: whenever `rating * 4` lies exactly halfway between two integers `k`
and `k + 1`, `ratingToStars` resolves the tie upward, returning
`1 + (k + 1)`; in particular `ratingToStars` maps 1/8 to 2, 3/8 to 3, 5/8
to 4 and 7/8 to 5. -/
theorem ratingToStars_ties_up :
    (∀ (r : ℚ) (k : ℤ), r * 4 = k + 1 / 2 →
        ratingToStars (some r) = 1 + (k + 1)) ∧
    ratingToStars (some (1 / 8)) = 2 ∧
    ratingToStars (some (3 / 8)) = 3 ∧
    ratingToStars (some (5 / 8)) = 4 ∧
    ratingToStars (some (7 / 8)) = 5 := by
  refine ⟨?_, by norm_num [ratingToStars, jsRound],
    by norm_num [ratingToStars, jsRound],
    by norm_num [ratingToStars, jsRound],
    by norm_num [ratingToStars, jsRound]⟩
  intro r k h
  have hcast : r * 4 + 1 / 2 = ((k + 1 : ℤ) : ℚ) := by
    rw [h]; push_cast; ring
  rw [ratingToStars, jsRound, hcast, Int.floor_intCast]

/-- Witness for C8: the tie rule applied at rating 1/8 (stars value 0.5). -/
theorem ratingToStars_ties_up_witness :
    ratingToStars (some (1 / 8)) = 1 + (0 + 1) :=
  ratingToStars_ties_up.1 (1 / 8) 0 (by norm_num)

/-! ### The `parseFile` entry point (src/index.ts lines 454-474)

The external collaborators (strtok3.fromFile, ParserFactory, the decoder,
the tokenizer's close) are asynchronous; `parseFile` composes them in a
promise chain.  We model one invocation by an environment fixing the outcome
of each collaborator call, and evaluate the chain to the settled result plus
the ordered trace of collaborator invocations actually performed. -/

/-- `ParserType` from src/index.ts line 370. -/
inductive ParserType where
  | mpeg | apev2 | mp4 | asf | flac | ogg | aiff | wavpack | riff
deriving DecidableEq

/-- The errors a parse promise can settle with.  `noParserFound ext` is the
`Error('No parser found for extension: ' + path.extname(filePath))` thrown
on line 471; the other constructors stand for opaque rejection values
produced by the external collaborators, carrying their message. -/
inductive PError where
  | openError (msg : String)
  | noParserFound (ext : String)
  | loadError (msg : String)
  | parseError (msg : String)
  | closeError (msg : String)
deriving DecidableEq

/-- The message of an error value. -/
def errMessage : PError → String
  | .openError m => m
  | .noParserFound ext => "No parser found for extension: " ++ ext
  | .loadError m => m
  | .parseError m => m
  | .closeError m => m

/-- The collaborator invocations `parseFile` can perform, as trace events:
opening the tokenizer (`strtok3.fromFile` resolving), loading the decoder
module (`ParserFactory.loadParser`), running the decoder
(`parser.init(...).parse()`), and closing the tokenizer
(`fileTokenizer.close()`). -/
inductive REv where
  | openTok
  | loadDecoder
  | runParse
  | closeTok
deriving DecidableEq

/-- The environment of one `parseFile` invocation: the outcome of each
external collaborator call.  `openResult`: rejection of `strtok3.fromFile`
(`none` = tokenizer opened).  `ext`: the value of `path.extname(filePath)`.
`parserId`: `ParserFactory.getParserIdForExtension(filePath)`.
`loadResult`: rejection of `ParserFactory.loadParser` (`none` = loaded).
`parseResult`: rejection of `parse()` (`none` = success).  `closeResult n`:
rejection of the n-th invocation (0-based) of `fileTokenizer.close()`
(`none` = that close succeeds). -/
structure Env where
  openResult : Option PError
  ext : String
  parserId : Option ParserType
  loadResult : Option PError
  parseResult : Option PError
  closeResult : Nat → Option PError

/-- Evaluation of the `parseFile` promise chain (src/index.ts lines 454-474)
against an environment: the settled result (the compiled metadata is not at
issue in any claim and is abstracted to `Unit`) together with the trace of
collaborator invocations.

Chain structure from the source: `strtok3.fromFile(filePath).then(tok => {`
if `getParserIdForExtension` yields no id, `throw` the no-parser error (the
tokenizer is NOT closed); otherwise `loadParser(...).then(parser =>`
(a load rejection propagates with NO close)
`parser.init(...).parse().then(() => tok.close().then(() => metadata))`
`.catch(err => tok.close().then(() => { throw err; }))`.

Note the `.catch` is attached after the success handler, so it receives not
only a `parse()` rejection but also a rejection of the close performed on
the success path — in which case `close()` is invoked a second time, and the
first close error is rethrown if that second close succeeds (the second
close's rejection wins if it also fails). -/
def parseFileRun (env : Env) : Except PError Unit × List REv :=
  match env.openResult with
  | some e => (Except.error e, [])
  | none =>
      match env.parserId with
      | none => (Except.error (PError.noParserFound env.ext), [REv.openTok])
      | some _ =>
          match env.loadResult with
          | some e => (Except.error e, [REv.openTok, REv.loadDecoder])
          | none =>
              match env.parseResult with
              | some pe =>
                  match env.closeResult 0 with
                  | none =>
                      (Except.error pe,
                       [REv.openTok, REv.loadDecoder, REv.runParse,
                        REv.closeTok])
                  | some ce =>
                      (Except.error ce,
                       [REv.openTok, REv.loadDecoder, REv.runParse,
                        REv.closeTok])
              | none =>
                  match env.closeResult 0 with
                  | none =>
                      (Except.ok (),
                       [REv.openTok, REv.loadDecoder, REv.runParse,
                        REv.closeTok])
                  | some ce1 =>
                      match env.closeResult 1 with
                      | none =>
                          (Except.error ce1,
                           [REv.openTok, REv.loadDecoder, REv.runParse,
                            REv.closeTok, REv.closeTok])
                      | some ce2 =>
                          (Except.error ce2,
                           [REv.openTok, REv.loadDecoder, REv.runParse,
                            REv.closeTok, REv.closeTok])

/-- Number of `closeTok` events in a trace. -/
def countClose : List REv → Nat
  | [] => 0
  | REv.closeTok :: es => countClose es + 1
  | _ :: es => countClose es

/-- How many times a `parseFile` invocation closes the tokenizer. -/
def closeCount (env : Env) : Nat :=
  countClose (parseFileRun env).2

/-- Environment of a parse whose path has an unregistered extension and in
which every collaborator that does run succeeds. -/
def envSelFail : Env :=
  { openResult := none, ext := ".xyz", parserId := none, loadResult := none,
    parseResult := none, closeResult := fun _ => none }

/-- Environment of a fully successful parse of an mpeg file. -/
def envAllOk : Env :=
  { openResult := none, ext := ".mp3", parserId := some ParserType.mpeg,
    loadResult := none, parseResult := none, closeResult := fun _ => none }

/-- Environment of a parse whose decoder `parse()` rejects and whose close
succeeds. -/
def envParseFail : Env :=
  { openResult := none, ext := ".ogg", parserId := some ParserType.ogg,
    loadResult := none, parseResult := some (PError.parseError "bad frame"),
    closeResult := fun _ => none }

/-- C1 counterexample: it is not the case that every parse that opened the
tokenizer closes it exactly once — on a decoder-selection failure (opened
tokenizer, no parser registered for the extension) the tokenizer is never
closed. -/
theorem parseFile_close_once_cex :
    ¬ (∀ env : Env, env.openResult = none → closeCount env = 1) := by
  intro hclaim
  have h0 : closeCount envSelFail = 0 := rfl
  have h1 := hclaim envSelFail rfl
  omega

/-- C1 (amended): once the tokenizer is opened, `parseFile` closes it
exactly once on the success path (when that close succeeds) and on decoder
`parse()` rejection; it does not close it at all on decoder-selection
failure or decoder load failure; and it closes it twice when `parse()`
succeeds but the success-path close fails (the close rejection falls into
the catch handler, which closes again). -/
theorem parseFile_close_count (env : Env) (hopen : env.openResult = none) :
    closeCount env =
      if env.parserId = none then 0
      else if env.loadResult ≠ none then 0
      else if env.parseResult ≠ none then 1
      else if env.closeResult 0 = none then 1 else 2 := by
  rcases env with ⟨o, ext, pid, lr, pr, cr⟩
  cases hopen
  cases pid with
  | none => rfl
  | some p =>
      cases lr with
      | some e => rfl
      | none =>
          cases pr with
          | some pe =>
              cases hc0 : cr 0 with
              | none => simp [closeCount, countClose, parseFileRun, hc0]
              | some ce => simp [closeCount, countClose, parseFileRun, hc0]
          | none =>
              cases hc0 : cr 0 with
              | none => simp [closeCount, countClose, parseFileRun, hc0]
              | some ce1 =>
                  cases hc1 : cr 1 with
                  | none =>
                      simp [closeCount, countClose, parseFileRun, hc0, hc1]
                  | some ce2 =>
                      simp [closeCount, countClose, parseFileRun, hc0, hc1]

/-- Witness for C1 (amended): a fully successful parse closes the tokenizer
exactly once. -/
theorem parseFile_close_count_witness : closeCount envAllOk = 1 := by
  have h := parseFile_close_count envAllOk rfl
  simpa [envAllOk] using h

/-- C2 counterexample: at a concrete parse whose path has an unregistered
extension, `parseFile` does reject with the no-parser error naming the
extension, but only after the tokenizer has been opened: the trace of
collaborator invocations is `[openTok]`, not empty, so the failure does not
occur before tokenizer work. -/
theorem parseFile_unsupported_ext_cex :
    (parseFileRun envSelFail).1 =
      Except.error (PError.noParserFound ".xyz") ∧
    (parseFileRun envSelFail).2 = [REv.openTok] ∧
    (parseFileRun envSelFail).2 ≠ [] := by
  refine ⟨rfl, rfl, ?_⟩
  intro h
  simp [parseFileRun, envSelFail] at h

/-- C2 (amended): `parseFile` on a path whose extension has no registered
decoder rejects with the no-parser error, whose message includes the
rejected extension; no decoder is loaded, no parse is attempted and no close
is performed, but the failure occurs only after the tokenizer has been
opened (the trace is exactly `[openTok]`). -/
theorem parseFile_unsupported_ext (env : Env) (hopen : env.openResult = none)
    (hsel : env.parserId = none) :
    (parseFileRun env).1 =
      Except.error (PError.noParserFound env.ext) ∧
    (∃ pre, errMessage (PError.noParserFound env.ext) = pre ++ env.ext) ∧
    (parseFileRun env).2 = [REv.openTok] := by
  rcases env with ⟨o, ext, pid, lr, pr, cr⟩
  cases hopen
  cases hsel
  exact ⟨rfl, ⟨"No parser found for extension: ", rfl⟩, rfl⟩

/-- Witness for C2 (amended): the unregistered-extension behaviour at the
concrete environment `envSelFail` (extension ".xyz"). -/
theorem parseFile_unsupported_ext_witness :
    (parseFileRun envSelFail).1 =
      Except.error (PError.noParserFound ".xyz") ∧
    (∃ pre, errMessage (PError.noParserFound ".xyz") = pre ++ ".xyz") ∧
    (parseFileRun envSelFail).2 = [REv.openTok] := by
  have h := parseFile_unsupported_ext envSelFail rfl rfl
  simpa [envSelFail] using h

/-- C3: when the decoder's `parse()` rejects during `parseFile`, the
tokenizer is closed first (the trace is open, load, parse, then close) and
the original decoder failure is propagated unchanged; a close error is
surfaced instead exactly when that close itself fails. -/
theorem parseFile_parse_reject (env : Env) (e : PError) (p : ParserType)
    (hopen : env.openResult = none) (hsel : env.parserId = some p)
    (hload : env.loadResult = none) (hparse : env.parseResult = some e) :
    (parseFileRun env).2 =
      [REv.openTok, REv.loadDecoder, REv.runParse, REv.closeTok] ∧
    (env.closeResult 0 = none → (parseFileRun env).1 = Except.error e) ∧
    (∀ ce, env.closeResult 0 = some ce →
        (parseFileRun env).1 = Except.error ce) := by
  rcases env with ⟨o, ext, pid, lr, pr, cr⟩
  cases hopen
  cases hsel
  cases hload
  cases hparse
  refine ⟨?_, ?_, ?_⟩
  · cases hc0 : cr 0 <;> simp [parseFileRun, hc0]
  · intro hc0
    dsimp only at hc0
    simp [parseFileRun, hc0]
  · intro ce hc0
    dsimp only at hc0
    simp [parseFileRun, hc0]

/-- Witness for C3: at the concrete environment `envParseFail` the decoder
rejection "bad frame" is what the caller observes, after the close. -/
theorem parseFile_parse_reject_witness :
    (parseFileRun envParseFail).2 =
      [REv.openTok, REv.loadDecoder, REv.runParse, REv.closeTok] ∧
    (parseFileRun envParseFail).1 =
      Except.error (PError.parseError "bad frame") := by
  have h := parseFile_parse_reject envParseFail
    (PError.parseError "bad frame") ParserType.ogg rfl rfl rfl rfl
  exact ⟨h.1, h.2.1 rfl⟩

/-! ### `parseStream` (lines 483-490) and `parseBuffer` (lines 499-505)

Both acquire a tokenizer, then run
`if (!tokenizer.fileSize && options.fileSize) tokenizer.fileSize = options.fileSize;`
and hand the tokenizer to `ParserFactory.parse(tokenizer, mimeType, options)`.
Only the `fileSize` field of the tokenizer and of the options matters to
these lines; `fileSize` is a JS `number | undefined`, modelled as
`Option ℕ`, with JS truthiness (undefined and 0 are falsy). -/

/-- The `fileSize` option of `IOptions` (src/index.ts line 378), the only
option these lines read. -/
structure IOptionsFS where
  fileSize : Option Nat
deriving DecidableEq

/-- The tokenizer state visible to `parseStream`/`parseBuffer`: its mutable
`fileSize`. -/
structure StreamTokenizer where
  fileSize : Option Nat
deriving DecidableEq

/-- JS truthiness of a `fileSize : number | undefined` value: `undefined`
and `0` are falsy, every other size is truthy. -/
def truthySize : Option Nat → Bool
  | none => false
  | some n => n != 0

/-- The tokenizer mutation performed by `parseStream` (lines 485-487)
before invoking `ParserFactory.parse`. -/
def parseStreamStep (tok : StreamTokenizer) (opts : IOptionsFS) :
    StreamTokenizer :=
  if !truthySize tok.fileSize && truthySize opts.fileSize then
    { tok with fileSize := opts.fileSize }
  else tok

/-- The tokenizer mutation performed by `parseBuffer` (lines 501-503)
before invoking `ParserFactory.parse`; the source lines are identical to
those of `parseStream`. -/
def parseBufferStep (tok : StreamTokenizer) (opts : IOptionsFS) :
    StreamTokenizer :=
  if !truthySize tok.fileSize && truthySize opts.fileSize then
    { tok with fileSize := opts.fileSize }
  else tok

/-- `parseStream` (lines 483-490): after the adjustment the tokenizer is
handed to `ParserFactory.parse`, modelled by the abstract function `pf`. -/
def parseStreamRun (pf : StreamTokenizer → Option String → IOptionsFS → α)
    (tok : StreamTokenizer) (mimeType : Option String) (opts : IOptionsFS) :
    α :=
  pf (parseStreamStep tok opts) mimeType opts

/-- `parseBuffer` (lines 499-505): after the adjustment the tokenizer is
handed to `ParserFactory.parse`, modelled by the abstract function `pf`. -/
def parseBufferRun (pf : StreamTokenizer → Option String → IOptionsFS → α)
    (tok : StreamTokenizer) (mimeType : Option String) (opts : IOptionsFS) :
    α :=
  pf (parseBufferStep tok opts) mimeType opts

/-- C7 counterexample: a tokenizer with no known total size and
`options.fileSize` given as 0 — the size is NOT applied (the JS truthiness
test on `options.fileSize` fails), so the tokenizer handed on still reports
no size, in both `parseStream` and `parseBuffer`. -/
theorem parseStream_fileSize_cex :
    (parseStreamStep ⟨none⟩ ⟨some 0⟩).fileSize = none ∧
    (parseBufferStep ⟨none⟩ ⟨some 0⟩).fileSize = none ∧
    ¬ ((parseStreamStep ⟨none⟩ ⟨some 0⟩).fileSize = some 0 ∧
       (parseBufferStep ⟨none⟩ ⟨some 0⟩).fileSize = some 0) := by
  decide

/-- C7 (amended): for `parseStream` and `parseBuffer`, if the acquired
tokenizer does not report a known total size and `options.fileSize` is
given as a nonzero value, that size is applied to the tokenizer's
`fileSize` field, and the tokenizer so adjusted is exactly what is handed
to `ParserFactory.parse`. -/
theorem parseStream_fileSize_applied (tok : StreamTokenizer)
    (opts : IOptionsFS) (n : Nat) (htok : tok.fileSize = none)
    (hopt : opts.fileSize = some n) (hn : n ≠ 0) :
    (parseStreamStep tok opts).fileSize = some n ∧
    (parseBufferStep tok opts).fileSize = some n ∧
    (∀ (α : Type) (pf : StreamTokenizer → Option String → IOptionsFS → α)
        (mimeType : Option String),
      parseStreamRun pf tok mimeType opts =
        pf (parseStreamStep tok opts) mimeType opts ∧
      parseBufferRun pf tok mimeType opts =
        pf (parseBufferStep tok opts) mimeType opts) := by
  rcases tok with ⟨tfs⟩
  rcases opts with ⟨ofs⟩
  cases htok
  cases hopt
  refine ⟨?_, ?_, fun α pf m => ⟨rfl, rfl⟩⟩ <;>
    simp [parseStreamStep, parseBufferStep, truthySize, hn]

/-- Witness for C7 (amended): an unknown-size tokenizer with
`options.fileSize = 5` is handed on with `fileSize = 5`. -/
theorem parseStream_fileSize_applied_witness :
    (parseStreamStep ⟨none⟩ ⟨some 5⟩).fileSize = some 5 ∧
    (parseBufferStep ⟨none⟩ ⟨some 5⟩).fileSize = some 5 :=
  ⟨(parseStream_fileSize_applied ⟨none⟩ ⟨some 5⟩ 5 rfl rfl
      (by decide)).1,
   (parseStream_fileSize_applied ⟨none⟩ ⟨some 5⟩ 5 rfl rfl
      (by decide)).2.1⟩

/-- C9 counterexample: the overwrite is not governed solely by the
tokenizer's falsy `fileSize` — with `options.fileSize` given as 0 and an
absent tokenizer size, no overwrite happens even though the tokenizer's
`fileSize` is absent. -/
theorem parseStream_overwrite_iff_cex :
    ¬ (∀ (tok : StreamTokenizer) (opts : IOptionsFS) (n : Nat),
        opts.fileSize = some n →
        (parseStreamStep tok opts).fileSize =
          (if tok.fileSize = none ∨ tok.fileSize = some 0 then some n
           else tok.fileSize)) := by
  intro hclaim
  have h := hclaim ⟨none⟩ ⟨some 0⟩ 0 rfl
  simp [parseStreamStep, truthySize] at h

/-- C9 (amended): `parseStream` and `parseBuffer` perform the same
adjustment; for a given NONZERO `options.fileSize` the tokenizer's
`fileSize` is overwritten exactly when it is absent or zero (in particular
a known total size of 0 is overwritten) and left unchanged otherwise; and
when `options.fileSize` is absent or zero the tokenizer is never
modified. -/
theorem parseStream_overwrite_iff (tok : StreamTokenizer)
    (opts : IOptionsFS) :
    parseStreamStep tok opts = parseBufferStep tok opts ∧
    (∀ n : Nat, opts.fileSize = some n → n ≠ 0 →
        (parseStreamStep tok opts).fileSize =
          (if tok.fileSize = none ∨ tok.fileSize = some 0 then some n
           else tok.fileSize)) ∧
    (opts.fileSize = none ∨ opts.fileSize = some 0 →
        parseStreamStep tok opts = tok) := by
  refine ⟨rfl, ?_, ?_⟩
  · intro n hn hn0
    rcases tok with ⟨tfs⟩
    rcases opts with ⟨ofs⟩
    cases hn
    match tfs with
    | none => simp [parseStreamStep, truthySize, hn0]
    | some 0 => simp [parseStreamStep, truthySize, hn0]
    | some (m + 1) => simp [parseStreamStep, truthySize]
  · intro h
    rcases tok with ⟨tfs⟩
    rcases opts with ⟨ofs⟩
    rcases h with h | h <;> cases h <;>
      simp [parseStreamStep, truthySize]

/-- Witness for C9 (amended): a tokenizer reporting a known total size of 0
is overwritten by a given nonzero `options.fileSize`. -/
theorem parseStream_overwrite_iff_witness :
    (parseStreamStep ⟨some 0⟩ ⟨some 7⟩).fileSize = some 7 := by
  have h := (parseStream_overwrite_iff ⟨some 0⟩ ⟨some 7⟩).2.1 7 rfl
    (by decide)
  simpa using h

end MusicMetadata
